import Mathlib

/-!
# Verification of the request frame decoder (`djl_python/inputs.py`)

Shallow embedding of the module `engines/python/setup/djl_python/inputs.py`:
the stream primitives (`retrieve_buffer`, `retrieve_int`, `retrieve_short`,
`retrieve_utf8`), the request frame decoder (`Input.read`) and the
content materializer (`Input.get_data` and the typed accessors).

Bytes are modelled as `Nat` values, byte buffers as `List Nat`.  The socket
connection is modelled as a queue of packets: each `recv length` call returns
at most `length` bytes from the front packet, and returns the empty buffer
once the packet queue is exhausted (a closed stream keeps returning empty
reads, exactly as a closed socket does).  Python exceptions are modelled by
an explicit error type threaded through `Except`.
-/

/-- The Python exceptions that the module can raise. -/
inductive Err where
  /-- `ValueError("Connection disconnected")` raised by `retrieve_buffer`. -/
  | disconnected
  /-- `UnicodeDecodeError` raised by `bytes.decode("utf8")`. -/
  | decodeError
  /-- `Exception("input is empty.")` raised by `Input.get_as_bytes`. -/
  | emptyInput
  /-- `AttributeError` raised when `None.lower()` or `None.decode()` is evaluated. -/
  | attributeError
  /-- `TypeError` raised when a `None` buffer is handed to `io.BytesIO`. -/
  | typeError
deriving DecidableEq, Repr

/-- Equality of `Except` results is decidable, so concrete runs of the
embedded code can be checked by `decide`. -/
instance exceptDecEq {ε α : Type} [DecidableEq ε] [DecidableEq α] :
    DecidableEq (Except ε α)
  | .error x, .error y =>
    match decEq x y with
    | isTrue h => isTrue (by rw [h])
    | isFalse h => isFalse (by intro hc; injection hc; contradiction)
  | .error _, .ok _ => isFalse (by intro hc; exact Except.noConfusion hc)
  | .ok _, .error _ => isFalse (by intro hc; exact Except.noConfusion hc)
  | .ok x, .ok y =>
    match decEq x y with
    | isTrue h => isTrue (by rw [h])
    | isFalse h => isFalse (by intro hc; injection hc; contradiction)

/-- The socket connection: a queue of pending packets.  An exhausted queue
models a closed stream (every further `recv` returns the empty buffer). -/
structure Conn where
  packets : List (List Nat)
deriving DecidableEq, Repr

/-- `conn.recv length`: deliver at most `length` bytes from the front packet,
keeping any unconsumed remainder of that packet at the front of the queue.
A `recv` on an exhausted queue returns the empty buffer (closed stream). -/
def Conn.recv (conn : Conn) (length : Int) : List Nat × Conn :=
  match conn.packets with
  | [] => ([], conn)
  | p :: ps =>
      let pkt := p.take length.toNat
      let rem := p.drop length.toNat
      (pkt, ⟨if rem.isEmpty then ps else rem :: ps⟩)

/-- The bytes still available on the connection, in delivery order. -/
def flatBytes : List (List Nat) → List Nat
  | [] => []
  | p :: ps => p ++ flatBytes ps

/-- The bytes still available on the connection, in delivery order. -/
def Conn.flat (conn : Conn) : List Nat := flatBytes conn.packets

/-- A well-formed connection has no empty packet in its queue: in the model an
empty packet signals a closed stream, so a well-formed queue delivers all of
its bytes before reporting closure. -/
def Conn.WF (conn : Conn) : Prop := ∀ p ∈ conn.packets, p ≠ []

instance (conn : Conn) : Decidable conn.WF :=
  inferInstanceAs (Decidable (∀ p ∈ conn.packets, p ≠ []))

/-- The accumulation loop of `retrieve_buffer`.  The `fuel` argument bounds the
number of iterations; since every successful iteration delivers at least one
byte, `length.toNat` iterations always suffice, so the fuel-exhaustion branch
is unreachable from `retrieve_buffer` below. -/
def retrieveBufferGo : Nat → Conn → Int → List Nat → Except Err (List Nat × Conn)
  | fuel, conn, length, data =>
    if length ≤ 0 then .ok (data, conn)
    else
      match fuel with
      | 0 => .error .disconnected
      | fuel' + 1 =>
        let r := conn.recv length
        if r.1.isEmpty then .error .disconnected
        else retrieveBufferGo fuel' r.2 (length - r.1.length) (data ++ r.1)

/-- `retrieve_buffer(conn, length)`: loop `recv`-ing until `length` bytes are
accumulated, raising `ValueError("Connection disconnected")` on an empty read. -/
def retrieve_buffer (conn : Conn) (length : Int) : Except Err (List Nat × Conn) :=
  retrieveBufferGo length.toNat conn length []

/-- `struct.unpack(">h", ...)`: two bytes as a signed big-endian 16-bit integer. -/
def toInt16 (b0 b1 : Nat) : Int :=
  let u : Nat := (b0 % 256) * 256 + b1 % 256
  if u < 32768 then (u : Int) else (u : Int) - 65536

/-- `struct.unpack(">i", ...)`: four bytes as a signed big-endian 32-bit integer. -/
def toInt32 (b0 b1 b2 b3 : Nat) : Int :=
  let u : Nat := ((b0 % 256) * 256 + b1 % 256) * 65536 + (b2 % 256) * 256 + b3 % 256
  if u < 2147483648 then (u : Int) else (u : Int) - 4294967296

/-- `retrieve_short(conn)`: read 2 bytes, decode as signed big-endian 16-bit. -/
def retrieve_short (conn : Conn) : Except Err (Int × Conn) :=
  match retrieve_buffer conn 2 with
  | .error e => .error e
  | .ok (d, c) => .ok (toInt16 (d.getD 0 0) (d.getD 1 0), c)

/-- `retrieve_int(conn)`: read 4 bytes, decode as signed big-endian 32-bit. -/
def retrieve_int (conn : Conn) : Except Err (Int × Conn) :=
  match retrieve_buffer conn 4 with
  | .error e => .error e
  | .ok (d, c) => .ok (toInt32 (d.getD 0 0) (d.getD 1 0) (d.getD 2 0) (d.getD 3 0), c)

/-- Is `b` a UTF-8 continuation byte (`0x80..0xBF`)? -/
def utf8Cont (b : Nat) : Prop := 128 ≤ b ∧ b ≤ 191

instance (b : Nat) : Decidable (utf8Cont b) :=
  inferInstanceAs (Decidable (128 ≤ b ∧ b ≤ 191))

/-- Strict UTF-8 decoding of a byte list into code points, as Python's
`bytes.decode("utf8")` performs it: rejects continuation-byte errors,
overlong encodings, surrogate code points and code points above `0x10FFFF`. -/
def utf8DecodeList : List Nat → Option (List Char)
  | [] => some []
  | b0 :: rest =>
    if b0 < 128 then
      (utf8DecodeList rest).map (fun cs => Char.ofNat b0 :: cs)
    else if b0 < 194 then none
    else if b0 < 224 then
      match rest with
      | b1 :: rest1 =>
        if utf8Cont b1 then
          (utf8DecodeList rest1).map
            (fun cs => Char.ofNat ((b0 - 192) * 64 + (b1 - 128)) :: cs)
        else none
      | [] => none
    else if b0 < 240 then
      match rest with
      | b1 :: b2 :: rest2 =>
        if utf8Cont b1 ∧ utf8Cont b2 ∧ (b0 = 224 → 160 ≤ b1) ∧ (b0 = 237 → b1 ≤ 159) then
          (utf8DecodeList rest2).map
            (fun cs => Char.ofNat ((b0 - 224) * 4096 + (b1 - 128) * 64 + (b2 - 128)) :: cs)
        else none
      | _ => none
    else if b0 < 245 then
      match rest with
      | b1 :: b2 :: b3 :: rest3 =>
        if utf8Cont b1 ∧ utf8Cont b2 ∧ utf8Cont b3 ∧
            (b0 = 240 → 144 ≤ b1) ∧ (b0 = 244 → b1 ≤ 143) then
          (utf8DecodeList rest3).map
            (fun cs =>
              Char.ofNat ((b0 - 240) * 262144 + (b1 - 128) * 4096 +
                (b2 - 128) * 64 + (b3 - 128)) :: cs)
        else none
      | _ => none
    else none

/-- `bytes.decode("utf8")` as a total function: `none` models `UnicodeDecodeError`. -/
def utf8Decode (bs : List Nat) : Option String :=
  (utf8DecodeList bs).map String.mk

/-- `retrieve_utf8(conn)`: read a signed 16-bit length prefix; a negative
prefix yields `None`, otherwise read that many bytes and UTF-8-decode them. -/
def retrieve_utf8 (conn : Conn) : Except Err (Option String × Conn) :=
  match retrieve_short conn with
  | .error e => .error e
  | .ok (len, c) =>
    if len < 0 then .ok (none, c)
    else
      match retrieve_buffer c len with
      | .error e => .error e
      | .ok (d, c2) =>
        match utf8Decode d with
        | some s => .ok (some s, c2)
        | none => .error .decodeError

/-- Python `dict` with `Option String` keys and values, in insertion order:
assignment to an existing key overwrites its value in place, assignment to a
fresh key appends.  Property keys and values can be `None` on the wire, hence
the `Option` on both sides. -/
abbrev PropDict := List (Option String × Option String)

/-- `d[k] = v` on the Python dict model: overwrite the first (unique)
occurrence of `k` in place, or append a fresh binding. -/
def dictInsert : PropDict → Option String → Option String → PropDict
  | [], k, v => [(k, v)]
  | (k0, v0) :: rest, k, v =>
    if k0 = k then (k0, v) :: rest else (k0, v0) :: dictInsert rest k v

/-- `d.get(k)` on the Python dict model: value of the first binding of `k`,
or `none` when `k` is absent. -/
def dictGet : PropDict → Option String → Option (Option String)
  | [], _ => none
  | (k0, v0) :: rest, k => if k0 = k then some v0 else dictGet rest k

/-- Modelled from the spec: the external ordered content list (`PairList`,
imported from `djl_python.pair_list`, whose source is not part of the given
files).  Per the spec it is "an abstract ordered-pairs collection" supporting
ordered append, first-match lookup by key, positional lookup and an emptiness
check; keys are optional strings, values raw byte buffers. -/
abbrev PairList := List (Option String × List Nat)

/-- Modelled from the spec: `PairList.add(key, value)` appends the pair,
preserving insertion order. -/
def PairList.add (pl : PairList) (key : Option String) (value : List Nat) : PairList :=
  pl ++ [(key, value)]

/-- Modelled from the spec: `PairList.get(key)` returns the value of the
first pair whose key matches, or `None` when no pair matches. -/
def PairList.get : PairList → String → Option (List Nat)
  | [], _ => none
  | (k0, v0) :: rest, k => if k0 = some k then some v0 else PairList.get rest k

/-- Modelled from the spec: `PairList.value_at(i)` returns the value of the
pair at position `i`. -/
def PairList.value_at (pl : PairList) (i : Nat) : Option (List Nat) :=
  (pl.get? i).map (fun p => p.2)

/-- Modelled from the spec: `PairList.is_empty()`. -/
def PairList.is_empty (pl : PairList) : Bool := pl.isEmpty

/-- The `Input` request object: `function_name`, `properties`, `content`,
exactly the fields assigned in `Input.__init__`. -/
structure Input where
  function_name : Option String
  properties : PropDict
  content : PairList
deriving DecidableEq, Repr

/-- A freshly constructed `Input()`. -/
def Input.init : Input := ⟨none, [], []⟩

/-- `str.lower()`: lowercase character by character (ASCII lowercasing; the
keys the module compares, `handler` and `content-type`, are ASCII). -/
def strLower (s : String) : String := String.mk (s.data.map Char.toLower)

/-- The generator in `Input.get_property`: scan `properties` in insertion
order for the first key whose lowercasing equals the lowercased query.  A
`None` key encountered before a match raises `AttributeError` (Python
evaluates `k.lower()` on it). -/
def lookupCI : PropDict → String → Except Err (Option String)
  | [], _ => .ok none
  | (none, _) :: _, _ => .error .attributeError
  | (some k0, v0) :: rest, key =>
    if strLower k0 = strLower key then .ok v0 else lookupCI rest key

/-- `Input.get_property(key)`: case-insensitive first-match lookup. -/
def Input.get_property (inp : Input) (key : String) : Except Err (Option String) :=
  lookupCI inp.properties key

/-- `Input.is_empty()`. -/
def Input.is_empty (inp : Input) : Bool := inp.content.is_empty

/-- `Input.get_as_bytes(key)`: raise on empty content; with a key, first-match
lookup (possibly `None`); without a key, the `"data"` value or, when absent,
the value of the first content pair. -/
def Input.get_as_bytes (inp : Input) (key : Option String) : Except Err (Option (List Nat)) :=
  if inp.content.is_empty then .error .emptyInput
  else
    match key with
    | some k => .ok (inp.content.get k)
    | none =>
      match inp.content.get "data" with
      | none => .ok (inp.content.value_at 0)
      | some ret => .ok (some ret)

/-- `Input.get_as_string(key)`: the extracted bytes decoded as UTF-8.  A
`None` buffer raises `AttributeError` (`None.decode`), invalid UTF-8 raises
`UnicodeDecodeError`. -/
def Input.get_as_string (inp : Input) (key : Option String) : Except Err String :=
  match inp.get_as_bytes key with
  | .error e => .error e
  | .ok none => .error .attributeError
  | .ok (some b) =>
    match utf8Decode b with
    | some s => .ok s
    | none => .error .decodeError

/-- `Input.get_as_json(key)`: the extracted bytes decoded as UTF-8 and handed
to `ast.literal_eval`.  The literal parser is an external collaborator (out of
scope per the spec), so the model returns the decoded text it receives. -/
def Input.get_as_json (inp : Input) (key : Option String) : Except Err String :=
  match inp.get_as_bytes key with
  | .error e => .error e
  | .ok none => .error .attributeError
  | .ok (some b) =>
    match utf8Decode b with
    | some s => .ok s
    | none => .error .decodeError

/-- `Input.get_as_image(key)`: the extracted bytes handed to
`PIL.Image.open(io.BytesIO(...))`.  The image codec is external (out of scope
per the spec), so the model returns the byte buffer it receives; a `None`
buffer raises `TypeError` in `io.BytesIO`. -/
def Input.get_as_image (inp : Input) (key : Option String) : Except Err (List Nat) :=
  match inp.get_as_bytes key with
  | .error e => .error e
  | .ok none => .error .typeError
  | .ok (some b) => .ok b

/-- `Input.get_as_numpy(key)`: the extracted bytes handed to `from_nd_list`.
The numeric-array deserializer is external (out of scope per the spec), so
the model returns the buffer it receives. -/
def Input.get_as_numpy (inp : Input) (key : Option String) : Except Err (Option (List Nat)) :=
  inp.get_as_bytes key

/-- `s.startswith(p)`: character-list prefix test. -/
def strStartsWith (s p : String) : Bool := p.data.isPrefixOf s.data

/-- `content_type is not None and content_type.startswith(p)`. -/
def ctStartsWith (ct : Option String) (p : String) : Bool :=
  match ct with
  | none => false
  | some s => strStartsWith s p

/-- The typed payload produced by `Input.get_data`, tagged by the accessor
that produced it.  External codec results (`image`, `ndlist`, `json`) carry
the data handed to the external routine. -/
inductive DataResult where
  | bytes (b : Option (List Nat))
  | text (s : String)
  | json (s : String)
  | image (b : List Nat)
  | ndlist (b : Option (List Nat))
deriving DecidableEq, Repr

/-- `Input.get_data(key)`: look up `content-type` case-insensitively and
dispatch on its exact value. -/
def Input.get_data (inp : Input) (key : Option String) : Except Err DataResult :=
  match inp.get_property "content-type" with
  | .error e => .error e
  | .ok ct =>
    if ct = some "tensor/ndlist" then
      (inp.get_as_numpy key).map DataResult.ndlist
    else if ct = some "application/json" then
      (inp.get_as_json key).map DataResult.json
    else if ctStartsWith ct "text/" then
      (inp.get_as_string key).map DataResult.text
    else if ctStartsWith ct "image/" then
      (inp.get_as_image key).map DataResult.image
    else
      (inp.get_as_bytes key).map DataResult.bytes

/-- The property loop of `Input.read`: `count` times read a key string and a
value string and assign `properties[key] = val`.  The `Input` component of
the result is the object's state when the loop stops, also on failure (the
Python loop mutates `self` in place, so pairs read before a failure stay). -/
def readPropsLoop : Nat → Input → Conn → Input × Except Err Conn
  | 0, inp, conn => (inp, .ok conn)
  | n + 1, inp, conn =>
    match retrieve_utf8 conn with
    | .error e => (inp, .error e)
    | .ok (key, c1) =>
      match retrieve_utf8 c1 with
      | .error e => (inp, .error e)
      | .ok (val, c2) =>
        readPropsLoop n { inp with properties := dictInsert inp.properties key val } c2

/-- The content loop of `Input.read`: `count` times read a nullable key
string, a 32-bit length, that many raw bytes, and append to `content`. -/
def readContentLoop : Nat → Input → Conn → Input × Except Err Conn
  | 0, inp, conn => (inp, .ok conn)
  | n + 1, inp, conn =>
    match retrieve_utf8 conn with
    | .error e => (inp, .error e)
    | .ok (key, c1) =>
      match retrieve_int c1 with
      | .error e => (inp, .error e)
      | .ok (length, c2) =>
        match retrieve_buffer c2 length with
        | .error e => (inp, .error e)
        | .ok (val, c3) =>
          readContentLoop n { inp with content := inp.content.add key val } c3

/-- `Input.read(conn)`: the frame decoder.  The `Input` component of the
result is the object's state when the call returns, also on failure. -/
def Input.read (inp : Input) (conn : Conn) : Input × Except Err Conn :=
  match retrieve_short conn with
  | .error e => (inp, .error e)
  | .ok (prop_size, c1) =>
    match readPropsLoop prop_size.toNat inp c1 with
    | (inp1, .error e) => (inp1, .error e)
    | (inp1, .ok c2) =>
      match retrieve_short c2 with
      | .error e => (inp1, .error e)
      | .ok (content_size, c3) =>
        match readContentLoop content_size.toNat inp1 c3 with
        | (inp2, .error e) => (inp2, .error e)
        | (inp2, .ok c4) =>
          ({ inp2 with
              function_name := (dictGet inp2.properties (some "handler")).join },
           .ok c4)

/-! ## Lemmas about the stream primitives -/

theorem flat_cons (p : List Nat) (ps : List (List Nat)) :
    Conn.flat ⟨p :: ps⟩ = p ++ Conn.flat ⟨ps⟩ := rfl

/-- If the connection still holds at least `n` bytes, the `retrieve_buffer`
loop returns exactly the first `n` of them (appended to the accumulator) and
leaves the remaining bytes on the connection. -/
theorem retrieveBufferGo_ok (fuel : Nat) :
    ∀ (n : Int) (conn : Conn) (acc data rest : List Nat),
    conn.WF → conn.flat = data ++ rest → 0 ≤ n → data.length = n.toNat →
    n.toNat ≤ fuel →
    ∃ conn', retrieveBufferGo fuel conn n acc = .ok (acc ++ data, conn') ∧
      conn'.WF ∧ conn'.flat = rest := by
  induction fuel with
  | zero =>
    intro n conn acc data rest hwf hflat hn hlen hfuel
    have hn0 : n = 0 := by omega
    subst hn0
    have hdata : data = [] := by
      cases data with
      | nil => rfl
      | cons a l => simp at hlen
    subst hdata
    exact ⟨conn, by simp [retrieveBufferGo], hwf, by simpa using hflat⟩
  | succ fuel ih =>
    intro n conn acc data rest hwf hflat hn hlen hfuel
    by_cases hle : n ≤ 0
    · have hn0 : n = 0 := le_antisymm hle hn
      subst hn0
      have hdata : data = [] := by
        cases data with
        | nil => rfl
        | cons a l => simp at hlen
      subst hdata
      exact ⟨conn, by simp [retrieveBufferGo], hwf, by simpa using hflat⟩
    · have hpos : 0 < n := lt_of_not_le hle
      have hposN : 0 < n.toNat := by omega
      cases hp : conn.packets with
      | nil =>
        exfalso
        have hfl : conn.flat = [] := by simp [Conn.flat, hp, flatBytes]
        rw [hfl] at hflat
        have : data = [] := by
          cases data with
          | nil => rfl
          | cons a l => simp at hflat
        simp [this] at hlen
        omega
      | cons p ps =>
        have hpne : p ≠ [] := hwf p (by rw [hp]; exact List.mem_cons_self p ps)
        have hplen : 0 < p.length := List.length_pos.mpr hpne
        set pkt := p.take n.toNat with hpkt
        set prest := p.drop n.toNat with hprest
        have hklen : pkt.length = min n.toNat p.length := List.length_take ..
        have hkpos : 0 < pkt.length := by rw [hklen]; omega
        have hkle : pkt.length ≤ n.toNat := by rw [hklen]; omega
        set conn2 : Conn := ⟨if prest.isEmpty then ps else prest :: ps⟩ with hconn2
        have hrecv : conn.recv n = (pkt, conn2) := by
          simp [Conn.recv, hp, hpkt, hprest, hconn2]
        have hwf2 : conn2.WF := by
          intro q hq
          rw [hconn2] at hq
          by_cases hpe : prest.isEmpty
          · simp [hpe] at hq
            exact hwf q (by rw [hp]; exact List.mem_cons_of_mem p hq)
          · simp [hpe] at hq
            cases hq with
            | inl h =>
              subst h
              intro hqe
              rw [hqe] at hpe
              simp at hpe
            | inr h => exact hwf q (by rw [hp]; exact List.mem_cons_of_mem p h)
        have hflat2 : conn2.flat = prest ++ Conn.flat ⟨ps⟩ := by
          by_cases hpe : prest.isEmpty
          · have : prest = [] := by simpa [List.isEmpty_iff] using hpe
            simp [hconn2, hpe, this]
          · simp [hconn2, hpe, flat_cons]
        have hflatconn : conn.flat = pkt ++ conn2.flat := by
          rw [Conn.flat, hp]
          show p ++ flatBytes ps = pkt ++ conn2.flat
          rw [hflat2]
          rw [← List.append_assoc, hpkt, hprest, List.take_append_drop]
          rfl
        have hkledata : pkt.length ≤ data.length := by omega
        have hpkt_take : data.take pkt.length = pkt := by
          have h2 : (data ++ rest).take pkt.length =
              (pkt ++ conn2.flat).take pkt.length := by
            rw [← hflat, ← hflatconn]
          rw [List.take_append_of_le_length hkledata,
            List.take_append_of_le_length (le_refl _), List.take_length] at h2
          exact h2
        have hdata_split : data = pkt ++ data.drop pkt.length := by
          conv_lhs => rw [← List.take_append_drop pkt.length data]
          rw [hpkt_take]
        have hflat2' : conn2.flat = data.drop pkt.length ++ rest := by
          have h1 : pkt ++ conn2.flat = pkt ++ (data.drop pkt.length ++ rest) := by
            rw [← hflatconn, hflat]
            conv_lhs => rw [hdata_split]
            rw [List.append_assoc]
          exact List.append_cancel_left h1
        have hlen' : (data.drop pkt.length).length = (n - pkt.length).toNat := by
          rw [List.length_drop]
          omega
        have hn' : (0 : Int) ≤ n - pkt.length := by omega
        have hfuel' : (n - (pkt.length : Int)).toNat ≤ fuel := by omega
        obtain ⟨conn', hgo, hwf', hflat'⟩ :=
          ih (n - pkt.length) conn2 (acc ++ pkt) (data.drop pkt.length) rest
            hwf2 hflat2' hn' hlen' hfuel'
        refine ⟨conn', ?_, hwf', hflat'⟩
        conv_lhs => rw [retrieveBufferGo]
        rw [if_neg hle]
        simp only [hrecv]
        rw [if_neg (by simpa [List.isEmpty_iff] using List.ne_nil_of_length_pos hkpos)]
        rw [hgo]
        have hacc : acc ++ pkt ++ data.drop pkt.length = acc ++ data := by
          rw [List.append_assoc, ← hdata_split]
        rw [hacc]

/-- If the connection holds fewer bytes than requested, the `retrieve_buffer`
loop fails with the disconnect error, whatever the accumulator holds. -/
theorem retrieveBufferGo_disconnected (fuel : Nat) :
    ∀ (n : Int) (conn : Conn) (acc : List Nat),
    conn.WF → (conn.flat.length : Int) < n →
    retrieveBufferGo fuel conn n acc = .error .disconnected := by
  induction fuel with
  | zero =>
    intro n conn acc hwf hlt
    have : ¬ n ≤ 0 := by omega
    rw [retrieveBufferGo, if_neg this]
  | succ fuel ih =>
    intro n conn acc hwf hlt
    have hle : ¬ n ≤ 0 := by omega
    rw [retrieveBufferGo, if_neg hle]
    cases hp : conn.packets with
    | nil =>
      have hrecv : conn.recv n = ([], conn) := by simp [Conn.recv, hp]
      simp only [hrecv]
      rfl
    | cons p ps =>
      have hpne : p ≠ [] := hwf p (by rw [hp]; exact List.mem_cons_self p ps)
      have hplen : 0 < p.length := List.length_pos.mpr hpne
      have hposN : 0 < n.toNat := by omega
      set pkt := p.take n.toNat with hpkt
      set prest := p.drop n.toNat with hprest
      have hklen : pkt.length = min n.toNat p.length := List.length_take ..
      have hkpos : 0 < pkt.length := by rw [hklen]; omega
      set conn2 : Conn := ⟨if prest.isEmpty then ps else prest :: ps⟩ with hconn2
      have hrecv : conn.recv n = (pkt, conn2) := by
        simp [Conn.recv, hp, hpkt, hprest, hconn2]
      simp only [hrecv]
      rw [if_neg (by simpa [List.isEmpty_iff] using List.ne_nil_of_length_pos hkpos)]
      apply ih
      · intro q hq
        rw [hconn2] at hq
        by_cases hpe : prest.isEmpty
        · simp [hpe] at hq
          exact hwf q (by rw [hp]; exact List.mem_cons_of_mem p hq)
        · simp [hpe] at hq
          cases hq with
          | inl h =>
            subst h
            intro hqe
            rw [hqe] at hpe
            simp at hpe
          | inr h => exact hwf q (by rw [hp]; exact List.mem_cons_of_mem p h)
      · have hflat2 : conn2.flat = prest ++ Conn.flat ⟨ps⟩ := by
          by_cases hpe : prest.isEmpty
          · have : prest = [] := by simpa [List.isEmpty_iff] using hpe
            simp [hconn2, hpe, this]
          · simp [hconn2, hpe, flat_cons]
        have hflatconn : conn.flat = pkt ++ conn2.flat := by
          rw [Conn.flat, hp]
          show p ++ flatBytes ps = pkt ++ conn2.flat
          rw [hflat2, ← List.append_assoc, hpkt, hprest, List.take_append_drop]
          rfl
        have : conn.flat.length = pkt.length + conn2.flat.length := by
          rw [hflatconn, List.length_append]
        omega

/-- A successful `retrieve_buffer` loop returns exactly the requested number
of bytes on top of the accumulator. -/
theorem retrieveBufferGo_length (fuel : Nat) :
    ∀ (n : Int) (conn : Conn) (acc d : List Nat) (conn' : Conn),
    0 ≤ n → retrieveBufferGo fuel conn n acc = .ok (d, conn') →
    d.length = acc.length + n.toNat := by
  induction fuel with
  | zero =>
    intro n conn acc d conn' hn hok
    by_cases hle : n ≤ 0
    · rw [retrieveBufferGo, if_pos hle] at hok
      injection hok with h
      injection h with h1 h2
      subst h1
      omega
    · rw [retrieveBufferGo, if_neg hle] at hok
      exact absurd hok (by intro h; exact Except.noConfusion h)
  | succ fuel ih =>
    intro n conn acc d conn' hn hok
    by_cases hle : n ≤ 0
    · rw [retrieveBufferGo, if_pos hle] at hok
      injection hok with h
      injection h with h1 h2
      subst h1
      omega
    · rw [retrieveBufferGo, if_neg hle] at hok
      cases hp : conn.packets with
      | nil =>
        rw [show conn.recv n = ([], conn) by simp [Conn.recv, hp]] at hok
        exact absurd hok (by intro h; exact Except.noConfusion h)
      | cons p ps =>
        set pkt := p.take n.toNat with hpkt
        set prest := p.drop n.toNat with hprest
        set conn2 : Conn := ⟨if prest.isEmpty then ps else prest :: ps⟩ with hconn2
        rw [show conn.recv n = (pkt, conn2) by
          simp [Conn.recv, hp, hpkt, hprest, hconn2]] at hok
        by_cases hpe : pkt.isEmpty
        · rw [if_pos hpe] at hok
          exact absurd hok (by intro h; exact Except.noConfusion h)
        · rw [if_neg hpe] at hok
          have hkle : pkt.length ≤ n.toNat := by
            rw [hpkt]
            exact le_trans (List.length_take_le ..) (le_refl _)
          have := ih (n - pkt.length) conn2 (acc ++ pkt) d conn' (by omega) hok
          rw [List.length_append] at this
          omega

/-- `retrieve_buffer` on a connection still holding the requested bytes
returns exactly those bytes and leaves the rest. -/
theorem retrieve_buffer_ok (conn : Conn) (n : Int) (data rest : List Nat)
    (hwf : conn.WF) (hflat : conn.flat = data ++ rest) (hn : 0 ≤ n)
    (hlen : data.length = n.toNat) :
    ∃ conn', retrieve_buffer conn n = .ok (data, conn') ∧
      conn'.WF ∧ conn'.flat = rest := by
  obtain ⟨conn', h, hwf', hflat'⟩ :=
    retrieveBufferGo_ok n.toNat n conn [] data rest hwf hflat hn hlen (le_refl _)
  exact ⟨conn', by simpa using h, hwf', hflat'⟩

/-! ## The wire format of the spec

The following encoders transcribe the frame grammar of the spec (section 6):
network byte order, two's complement, `UTF8Str := Len:int16 Bytes:byte[Len]`
with a negative length encoding "no value".  They exist only to state the
refinement theorems: a well-formed input stream is an encoded frame. -/

/-- A 16-bit big-endian two's-complement integer, per the spec's wire format. -/
def int16BE (n : Int) : List Nat :=
  [(n % 65536).toNat / 256, (n % 65536).toNat % 256]

/-- A 32-bit big-endian two's-complement integer, per the spec's wire format. -/
def int32BE (n : Int) : List Nat :=
  [(n % 4294967296).toNat / 16777216,
   (n % 4294967296).toNat / 65536 % 256,
   (n % 4294967296).toNat / 256 % 256,
   (n % 4294967296).toNat % 256]

/-- A present UTF-8 string on the wire: 16-bit length prefix, then the bytes. -/
def encStr (b : List Nat) : List Nat := int16BE b.length ++ b

/-- A nullable UTF-8 string on the wire: absent is a negative length prefix. -/
def encOptStr : Option (List Nat) → List Nat
  | none => int16BE (-1)
  | some b => encStr b

/-- The property block of a frame: each pair as two UTF-8 strings. -/
def encProps : List (List Nat × List Nat) → List Nat
  | [] => []
  | (k, v) :: rest => encStr k ++ encStr v ++ encProps rest

/-- The content block of a frame: nullable key, 32-bit length, raw bytes. -/
def encContent : List (Option (List Nat) × List Nat) → List Nat
  | [] => []
  | (k, v) :: rest => encOptStr k ++ int32BE v.length ++ v ++ encContent rest

/-- A complete frame, per the spec's wire grammar. -/
def specFrame (props : List (List Nat × List Nat))
    (content : List (Option (List Nat) × List Nat)) : List Nat :=
  int16BE props.length ++ encProps props ++
    int16BE content.length ++ encContent content

/-- Decoding the two bytes of `int16BE n` recovers `n` for in-range values. -/
theorem toInt16_int16BE (n : Int) (h1 : -32768 ≤ n) (h2 : n < 32768) :
    toInt16 ((int16BE n).getD 0 0) ((int16BE n).getD 1 0) = n := by
  simp only [int16BE, List.getD, toInt16, List.get?, Option.getD]
  split <;> omega

/-- Decoding the four bytes of `int32BE n` recovers `n` for in-range values. -/
theorem toInt32_int32BE (n : Int) (h1 : -2147483648 ≤ n) (h2 : n < 2147483648) :
    toInt32 ((int32BE n).getD 0 0) ((int32BE n).getD 1 0)
      ((int32BE n).getD 2 0) ((int32BE n).getD 3 0) = n := by
  simp only [int32BE, List.getD, toInt32, List.get?, Option.getD]
  split <;> omega

/-- `retrieve_short` on a connection starting with an encoded in-range 16-bit
integer returns that integer and consumes exactly its two bytes. -/
theorem retrieve_short_spec (conn : Conn) (n : Int) (rest : List Nat)
    (hwf : conn.WF) (hflat : conn.flat = int16BE n ++ rest)
    (h1 : -32768 ≤ n) (h2 : n < 32768) :
    ∃ conn', retrieve_short conn = .ok (n, conn') ∧ conn'.WF ∧ conn'.flat = rest := by
  obtain ⟨conn', hok, hwf', hflat'⟩ :=
    retrieve_buffer_ok conn 2 (int16BE n) rest hwf hflat (by omega)
      (by simp [int16BE])
  refine ⟨conn', ?_, hwf', hflat'⟩
  simp only [retrieve_short, hok]
  rw [toInt16_int16BE n h1 h2]

/-- `retrieve_int` on a connection starting with an encoded in-range 32-bit
integer returns that integer and consumes exactly its four bytes. -/
theorem retrieve_int_spec (conn : Conn) (n : Int) (rest : List Nat)
    (hwf : conn.WF) (hflat : conn.flat = int32BE n ++ rest)
    (h1 : -2147483648 ≤ n) (h2 : n < 2147483648) :
    ∃ conn', retrieve_int conn = .ok (n, conn') ∧ conn'.WF ∧ conn'.flat = rest := by
  obtain ⟨conn', hok, hwf', hflat'⟩ :=
    retrieve_buffer_ok conn 4 (int32BE n) rest hwf hflat (by omega)
      (by simp [int32BE])
  refine ⟨conn', ?_, hwf', hflat'⟩
  simp only [retrieve_int, hok]
  rw [toInt32_int32BE n h1 h2]

/-- `retrieve_utf8` on a negative length prefix returns `None` and consumes
exactly the two prefix bytes. -/
theorem retrieve_utf8_neg (conn : Conn) (n : Int) (rest : List Nat)
    (hwf : conn.WF) (hflat : conn.flat = int16BE n ++ rest)
    (h1 : -32768 ≤ n) (h2 : n < 0) :
    ∃ conn', retrieve_utf8 conn = .ok (none, conn') ∧ conn'.WF ∧ conn'.flat = rest := by
  obtain ⟨conn', hok, hwf', hflat'⟩ :=
    retrieve_short_spec conn n rest hwf hflat h1 (by omega)
  refine ⟨conn', ?_, hwf', hflat'⟩
  simp only [retrieve_utf8, hok]
  rw [if_pos h2]

/-- `retrieve_utf8` on a non-negative length prefix reads exactly that many
further bytes; it returns their UTF-8 decoding, or fails with the decode
error when they are not valid UTF-8. -/
theorem retrieve_utf8_pos (conn : Conn) (b rest : List Nat)
    (hwf : conn.WF) (hflat : conn.flat = int16BE b.length ++ (b ++ rest))
    (hlen : b.length < 32768) :
    (∀ s, utf8Decode b = some s →
      ∃ conn', retrieve_utf8 conn = .ok (some s, conn') ∧
        conn'.WF ∧ conn'.flat = rest) ∧
    (utf8Decode b = none → retrieve_utf8 conn = .error .decodeError) := by
  obtain ⟨conn1, hok1, hwf1, hflat1⟩ :=
    retrieve_short_spec conn b.length (b ++ rest) hwf hflat (by omega) (by omega)
  have hnneg : ¬ ((b.length : Int) < 0) := by omega
  obtain ⟨conn2, hok2, hwf2, hflat2⟩ :=
    retrieve_buffer_ok conn1 b.length b rest hwf1 hflat1 (by omega) (by omega)
  constructor
  · intro s hdec
    refine ⟨conn2, ?_, hwf2, hflat2⟩
    simp only [retrieve_utf8, hok1, hok2, hdec]
    rw [if_neg hnneg]
  · intro hdec
    simp only [retrieve_utf8, hok1, hok2, hdec]
    rw [if_neg hnneg]

/-- `retrieve_utf8` on an encoded nullable string (spec wire format) returns
its decoding: `None` stays `None`, a present byte string is UTF-8 decoded. -/
theorem retrieve_utf8_enc (conn : Conn) (ob : Option (List Nat)) (rest : List Nat)
    (hwf : conn.WF) (hflat : conn.flat = encOptStr ob ++ rest)
    (hb : ∀ b, ob = some b → b.length < 32768 ∧ (utf8Decode b).isSome) :
    ∃ conn', retrieve_utf8 conn = .ok (ob.bind utf8Decode, conn') ∧
      conn'.WF ∧ conn'.flat = rest := by
  cases ob with
  | none =>
    obtain ⟨conn', hok, hwf', hflat'⟩ :=
      retrieve_utf8_neg conn (-1) rest hwf (by simpa [encOptStr] using hflat)
        (by omega) (by omega)
    exact ⟨conn', by simpa using hok, hwf', hflat'⟩
  | some b =>
    obtain ⟨hblen, hbdec⟩ := hb b rfl
    obtain ⟨s, hs⟩ := Option.isSome_iff_exists.mp hbdec
    have hflat' : conn.flat = int16BE b.length ++ (b ++ rest) := by
      rw [hflat]
      simp [encOptStr, encStr]
    obtain ⟨conn', hok, hwf', hfl⟩ :=
      (retrieve_utf8_pos conn b rest hwf hflat' hblen).1 s hs
    exact ⟨conn', by simpa [hs] using hok, hwf', hfl⟩

/-! ## Decoding an encoded frame -/

/-- Running the property loop over the encoded property block inserts the
decoded pairs into `properties` in wire order by plain dict assignment, and
consumes exactly the block's bytes. -/
theorem readPropsLoop_spec :
    ∀ (props : List (List Nat × List Nat)) (inp : Input) (conn : Conn)
      (rest : List Nat),
    conn.WF → conn.flat = encProps props ++ rest →
    (∀ p ∈ props, p.1.length < 32768 ∧ (utf8Decode p.1).isSome ∧
      p.2.length < 32768 ∧ (utf8Decode p.2).isSome) →
    ∃ conn', readPropsLoop props.length inp conn =
      ({ inp with properties :=
          (props.foldl
            (fun m p => dictInsert m (utf8Decode p.1) (utf8Decode p.2))
            inp.properties) }, .ok conn') ∧
      conn'.WF ∧ conn'.flat = rest := by
  intro props
  induction props with
  | nil =>
    intro inp conn rest hwf hflat _
    exact ⟨conn, rfl, hwf, by simpa [encProps] using hflat⟩
  | cons kv tl ih =>
    obtain ⟨k, v⟩ := kv
    intro inp conn rest hwf hflat hp
    obtain ⟨hk, hkdec, hv, hvdec⟩ := hp (k, v) (List.mem_cons_self ..)
    have hflat1 : conn.flat = encOptStr (some k) ++
        (encStr v ++ (encProps tl ++ rest)) := by
      rw [hflat]
      simp [encProps, encOptStr, List.append_assoc]
    obtain ⟨conn1, hok1, hwf1, hflat1'⟩ :=
      retrieve_utf8_enc conn (some k) (encStr v ++ (encProps tl ++ rest))
        hwf hflat1 (by intro b hb; injection hb with hb; subst hb; exact ⟨hk, hkdec⟩)
    have hflat2 : conn1.flat = encOptStr (some v) ++ (encProps tl ++ rest) := by
      rw [hflat1']
      simp [encOptStr]
    obtain ⟨conn2, hok2, hwf2, hflat2'⟩ :=
      retrieve_utf8_enc conn1 (some v) (encProps tl ++ rest)
        hwf1 hflat2 (by intro b hb; injection hb with hb; subst hb; exact ⟨hv, hvdec⟩)
    obtain ⟨conn', hloop, hwf', hflat'⟩ :=
      ih { inp with properties :=
            dictInsert inp.properties (utf8Decode k) (utf8Decode v) }
        conn2 rest hwf2 hflat2'
        (fun p hp' => hp p (List.mem_cons_of_mem _ hp'))
    refine ⟨conn', ?_, hwf', hflat'⟩
    show readPropsLoop (tl.length + 1) inp conn = _
    simp only [readPropsLoop, hok1, hok2, Option.bind]
    rw [hloop]
    rfl

/-- Running the content loop over the encoded content block appends the
decoded pairs to `content` in wire order, and consumes exactly the block's
bytes. -/
theorem readContentLoop_spec :
    ∀ (content : List (Option (List Nat) × List Nat)) (inp : Input)
      (conn : Conn) (rest : List Nat),
    conn.WF → conn.flat = encContent content ++ rest →
    (∀ p ∈ content, (∀ b, p.1 = some b → b.length < 32768 ∧ (utf8Decode b).isSome) ∧
      p.2.length < 2147483648) →
    ∃ conn', readContentLoop content.length inp conn =
      ({ inp with content :=
          (inp.content ++
            content.map (fun p => (p.1.bind utf8Decode, p.2))) }, .ok conn') ∧
      conn'.WF ∧ conn'.flat = rest := by
  intro content
  induction content with
  | nil =>
    intro inp conn rest hwf hflat _
    exact ⟨conn, by simp [readContentLoop], hwf, by simpa [encContent] using hflat⟩
  | cons kv tl ih =>
    obtain ⟨ok, v⟩ := kv
    intro inp conn rest hwf hflat hp
    obtain ⟨hkey, hvlen⟩ := hp (ok, v) (List.mem_cons_self ..)
    have hvlen' : v.length < 2147483648 := hvlen
    have hflat1 : conn.flat = encOptStr ok ++
        (int32BE v.length ++ (v ++ (encContent tl ++ rest))) := by
      rw [hflat]
      simp [encContent, List.append_assoc]
    obtain ⟨conn1, hok1, hwf1, hflat1'⟩ :=
      retrieve_utf8_enc conn ok (int32BE v.length ++ (v ++ (encContent tl ++ rest)))
        hwf hflat1 hkey
    obtain ⟨conn2, hok2, hwf2, hflat2'⟩ :=
      retrieve_int_spec conn1 v.length (v ++ (encContent tl ++ rest))
        hwf1 hflat1' (by omega) (by omega)
    obtain ⟨conn3, hok3, hwf3, hflat3'⟩ :=
      retrieve_buffer_ok conn2 v.length v (encContent tl ++ rest)
        hwf2 hflat2' (by omega) (by omega)
    obtain ⟨conn', hloop, hwf', hflat'⟩ :=
      ih { inp with content := inp.content.add (ok.bind utf8Decode) v }
        conn3 rest hwf3 hflat3'
        (fun p hp' => hp p (List.mem_cons_of_mem _ hp'))
    refine ⟨conn', ?_, hwf', hflat'⟩
    show readContentLoop (tl.length + 1) inp conn = _
    simp only [readContentLoop, hok1, hok2, hok3]
    rw [hloop]
    simp [PairList.add, List.append_assoc]

/-! ## The properties dict: last write wins -/

theorem dictGet_dictInsert (m : PropDict) (k0 v k : Option String) :
    dictGet (dictInsert m k0 v) k = if k0 = k then some v else dictGet m k := by
  induction m with
  | nil => simp [dictInsert, dictGet]
  | cons a m ih =>
    obtain ⟨k1, v1⟩ := a
    by_cases h : k1 = k0
    · subst h
      simp only [dictInsert, if_pos rfl, dictGet]
      by_cases hk : k1 = k <;> simp [hk]
    · simp only [dictInsert, if_neg h, dictGet]
      by_cases hk : k1 = k
      · subst hk
        have hne : ¬ k0 = k1 := fun hh => h hh.symm
        simp [if_pos rfl, if_neg hne]
      · simp [if_neg hk, ih]

theorem dictGet_append (xs ys : PropDict) (k : Option String) :
    dictGet (xs ++ ys) k = (dictGet xs k).orElse (fun _ => dictGet ys k) := by
  induction xs with
  | nil => simp [dictGet, Option.orElse]
  | cons a xs ih =>
    obtain ⟨k0, v0⟩ := a
    by_cases h : k0 = k <;> simp [dictGet, h, ih, Option.orElse]

/-- Folding dict assignments over a list of decoded pairs: a lookup in the
resulting dict finds the value of the *last* pair with the key (first match
in the reversed list), falling back to the initial dict. -/
theorem dictGet_foldl_dec (l : List (List Nat × List Nat)) :
    ∀ (m : PropDict) (k : Option String),
    dictGet (l.foldl
        (fun m p => dictInsert m (utf8Decode p.1) (utf8Decode p.2)) m) k =
      (dictGet ((l.map (fun p => (utf8Decode p.1, utf8Decode p.2))).reverse) k).orElse
        (fun _ => dictGet m k) := by
  induction l with
  | nil => intro m k; simp [dictGet, Option.orElse]
  | cons a l ih =>
    intro m k
    simp only [List.foldl_cons, List.map_cons, List.reverse_cons]
    rw [ih, dictGet_append]
    cases hrev : dictGet ((l.map (fun p => (utf8Decode p.1, utf8Decode p.2))).reverse) k with
    | some v => simp [Option.orElse]
    | none =>
      simp only [Option.orElse]
      rw [dictGet_dictInsert]
      by_cases h : utf8Decode a.1 = k <;> simp [dictGet, h]

/-- The dict built by decoding a property block in wire order. -/
def propsDict (props : List (List Nat × List Nat)) : PropDict :=
  props.foldl (fun m p => dictInsert m (utf8Decode p.1) (utf8Decode p.2)) []

/-- A lookup in the decoded dict is a first-match lookup in the reversed
decoded pair list: the last occurrence of a duplicate key wins. -/
theorem propsDict_lookup (props : List (List Nat × List Nat)) (k : Option String) :
    dictGet (propsDict props) k =
      dictGet ((props.map (fun p => (utf8Decode p.1, utf8Decode p.2))).reverse) k := by
  rw [propsDict, dictGet_foldl_dec]
  cases h : dictGet ((props.map (fun p => (utf8Decode p.1, utf8Decode p.2))).reverse) k <;>
    simp [Option.orElse, dictGet]

/-- C1: For every well-formed input stream (an encoded frame whose counts
and lengths are in range and whose strings are valid UTF-8), `read(conn)`
first reads the signed 16-bit big-endian property count and, exactly that
many times, a key string and a value string, storing them in `properties`
by plain dict assignment — so a duplicate key's last value wins (the
`dictGet` conjunct); it then reads the signed 16-bit content count and,
exactly that many times, a nullable key, a signed 32-bit length and that
many raw bytes, appending the pairs to `content` in wire order.  The whole
frame is consumed. -/
theorem read_decodes_frame (props : List (List Nat × List Nat))
    (content : List (Option (List Nat) × List Nat)) (conn : Conn)
    (hwf : conn.WF) (hflat : conn.flat = specFrame props content)
    (hplen : props.length < 32768) (hclen : content.length < 32768)
    (hprops : ∀ p ∈ props, p.1.length < 32768 ∧ (utf8Decode p.1).isSome ∧
      p.2.length < 32768 ∧ (utf8Decode p.2).isSome)
    (hcontent : ∀ p ∈ content,
      (∀ b, p.1 = some b → b.length < 32768 ∧ (utf8Decode b).isSome) ∧
      p.2.length < 2147483648) :
    ∃ conn', Input.read Input.init conn =
      (⟨(dictGet (propsDict props) (some "handler")).join, propsDict props,
        content.map (fun p => (p.1.bind utf8Decode, p.2))⟩, .ok conn') ∧
      conn'.flat = [] ∧
      (∀ k, dictGet (propsDict props) k =
        dictGet ((props.map (fun p => (utf8Decode p.1, utf8Decode p.2))).reverse) k) := by
  have hflat1 : conn.flat = int16BE props.length ++
      (encProps props ++ (int16BE content.length ++ (encContent content ++ []))) := by
    rw [hflat]
    simp [specFrame, List.append_assoc]
  obtain ⟨conn1, hok1, hwf1, hflat1'⟩ :=
    retrieve_short_spec conn props.length
      (encProps props ++ (int16BE content.length ++ (encContent content ++ [])))
      hwf hflat1 (by omega) (by omega)
  obtain ⟨conn2, hloop1, hwf2, hflat2'⟩ :=
    readPropsLoop_spec props Input.init conn1
      (int16BE content.length ++ (encContent content ++ []))
      hwf1 hflat1' hprops
  obtain ⟨conn3, hok3, hwf3, hflat3'⟩ :=
    retrieve_short_spec conn2 content.length (encContent content ++ [])
      hwf2 hflat2' (by omega) (by omega)
  obtain ⟨conn4, hloop2, hwf4, hflat4'⟩ :=
    readContentLoop_spec content
      ⟨none, props.foldl (fun m p => dictInsert m (utf8Decode p.1) (utf8Decode p.2)) [], []⟩
      conn3 [] hwf3 hflat3' hcontent
  refine ⟨conn4, ?_, hflat4', fun k => propsDict_lookup props k⟩
  simp only [Input.read, hok1, Int.toNat_natCast, hloop1, hok3]
  simp only [Input.init]
  rw [hloop2]
  simp [propsDict, Option.join]

/-- Witness for C1: a concrete frame with duplicate property key `a`
(values `1` then `2`) and one content pair keyed `data`. -/
theorem read_decodes_frame_witness :
    Conn.WF ⟨[specFrame [([97], [49]), ([97], [50])] [(some [100, 97, 116, 97], [7])]]⟩ ∧
    ∃ conn', Input.read Input.init
        ⟨[specFrame [([97], [49]), ([97], [50])] [(some [100, 97, 116, 97], [7])]]⟩ =
      (⟨(dictGet (propsDict [([97], [49]), ([97], [50])]) (some "handler")).join,
        propsDict [([97], [49]), ([97], [50])],
        [(some [100, 97, 116, 97], [7])].map (fun p => (p.1.bind utf8Decode, p.2))⟩,
        .ok conn') ∧
      conn'.flat = [] ∧
      (∀ k, dictGet (propsDict [([97], [49]), ([97], [50])]) k =
        dictGet (([([97], [49]), ([97], [50])].map
          (fun p => (utf8Decode p.1, utf8Decode p.2))).reverse) k) :=
  ⟨by decide,
    read_decodes_frame [([97], [49]), ([97], [50])] [(some [100, 97, 116, 97], [7])]
      ⟨[specFrame [([97], [49]), ([97], [50])] [(some [100, 97, 116, 97], [7])]]⟩
      (by decide) (by decide) (by decide) (by decide) (by decide) (by decide)⟩

/-- C2 counterexample: on the stream `[0,1, 0,1,'a', 0,1,'1']` (one property
pair, then the stream closes before the content count) `read` fails with the
disconnect error, yet the request keeps the already-decoded property
`a = 1`, which remains usable through the property lookup — so the decode is
not all-or-nothing and leaves partially-usable state. -/
theorem read_not_atomic_counterexample :
    Input.read Input.init ⟨[[0, 1, 0, 1, 97, 0, 1, 49]]⟩ =
      (⟨none, [(some "a", some "1")], []⟩, .error .disconnected) ∧
    lookupCI [(some "a", some "1")] "a" = .ok (some "1") ∧
    [(some "a", some "1")] ≠ ([] : PropDict) := by
  exact ⟨by decide, by decide, by decide⟩

/-- One iteration of the property loop fails with error `e` on a stream
holding the bytes `tail`: either the key read fails, or the key read
succeeds and the value read fails.  Stated for every connection carrying
those bytes, whatever its packetization. -/
def propStepFails (tail : List Nat) (e : Err) : Prop :=
  ∀ c : Conn, c.WF → c.flat = tail →
    retrieve_utf8 c = .error e ∨
    ∃ k c', retrieve_utf8 c = .ok (k, c') ∧ retrieve_utf8 c' = .error e

/-- One iteration of the content loop fails with error `e` on a stream
holding the bytes `tail`: the key read fails, or it succeeds and the length
read fails, or both succeed and the raw-byte read fails. -/
def contentStepFails (tail : List Nat) (e : Err) : Prop :=
  ∀ c : Conn, c.WF → c.flat = tail →
    retrieve_utf8 c = .error e ∨
    ∃ k c', retrieve_utf8 c = .ok (k, c') ∧
      (retrieve_int c' = .error e ∨
       ∃ L c2, retrieve_int c' = .ok (L, c2) ∧ retrieve_buffer c2 L = .error e)

/-- If the stream carries `props` complete property pairs followed by bytes
on which the next iteration fails, a property loop asked for strictly more
than `props.length` pairs fails with that error, and the `Input` keeps
exactly the pairs decoded before the failure. -/
theorem readPropsLoop_fails :
    ∀ (props : List (List Nat × List Nat)) (extra : Nat) (inp : Input)
      (conn : Conn) (tail : List Nat) (e : Err),
    conn.WF → conn.flat = encProps props ++ tail →
    (∀ p ∈ props, p.1.length < 32768 ∧ (utf8Decode p.1).isSome ∧
      p.2.length < 32768 ∧ (utf8Decode p.2).isSome) →
    propStepFails tail e →
    readPropsLoop (props.length + (extra + 1)) inp conn =
      ({ inp with properties :=
          (props.foldl
            (fun m p => dictInsert m (utf8Decode p.1) (utf8Decode p.2))
            inp.properties) }, .error e) := by
  intro props
  induction props with
  | nil =>
    intro extra inp conn tail e hwf hflat _ hfail
    have hflat' : conn.flat = tail := by simpa [encProps] using hflat
    simp only [List.length_nil, Nat.zero_add]
    rcases hfail conn hwf hflat' with hkey | ⟨k, c', hkey, hval⟩
    · simp only [readPropsLoop, hkey]
      rfl
    · simp only [readPropsLoop, hkey, hval]
      rfl
  | cons kv tl ih =>
    obtain ⟨k, v⟩ := kv
    intro extra inp conn tail e hwf hflat hp hfail
    obtain ⟨hk, hkdec, hv, hvdec⟩ := hp (k, v) (List.mem_cons_self ..)
    have hflat1 : conn.flat = encOptStr (some k) ++
        (encStr v ++ (encProps tl ++ tail)) := by
      rw [hflat]
      simp [encProps, encOptStr, List.append_assoc]
    obtain ⟨conn1, hok1, hwf1, hflat1'⟩ :=
      retrieve_utf8_enc conn (some k) (encStr v ++ (encProps tl ++ tail))
        hwf hflat1 (by intro b hb; injection hb with hb; subst hb; exact ⟨hk, hkdec⟩)
    have hflat2 : conn1.flat = encOptStr (some v) ++ (encProps tl ++ tail) := by
      rw [hflat1']
      simp [encOptStr]
    obtain ⟨conn2, hok2, hwf2, hflat2'⟩ :=
      retrieve_utf8_enc conn1 (some v) (encProps tl ++ tail)
        hwf1 hflat2 (by intro b hb; injection hb with hb; subst hb; exact ⟨hv, hvdec⟩)
    have hloop :=
      ih extra { inp with properties := dictInsert inp.properties (utf8Decode k) (utf8Decode v) }
        conn2 tail e hwf2 hflat2'
        (fun p hp' => hp p (List.mem_cons_of_mem _ hp')) hfail
    have harith : ((k, v) :: tl).length + (extra + 1) =
        (tl.length + (extra + 1)) + 1 := by
      simp only [List.length_cons]
      omega
    rw [harith, readPropsLoop]
    simp only [hok1, hok2, Option.bind]
    rw [hloop]
    rfl

/-- If the stream carries `content` complete content pairs followed by
bytes on which the next iteration fails, a content loop asked for strictly
more pairs fails with that error, and the `Input` keeps exactly the pairs
appended before the failure. -/
theorem readContentLoop_fails :
    ∀ (content : List (Option (List Nat) × List Nat)) (extra : Nat)
      (inp : Input) (conn : Conn) (tail : List Nat) (e : Err),
    conn.WF → conn.flat = encContent content ++ tail →
    (∀ p ∈ content, (∀ b, p.1 = some b → b.length < 32768 ∧ (utf8Decode b).isSome) ∧
      p.2.length < 2147483648) →
    contentStepFails tail e →
    readContentLoop (content.length + (extra + 1)) inp conn =
      ({ inp with content :=
          (inp.content ++
            content.map (fun p => (p.1.bind utf8Decode, p.2))) }, .error e) := by
  intro content
  induction content with
  | nil =>
    intro extra inp conn tail e hwf hflat _ hfail
    have hflat' : conn.flat = tail := by simpa [encContent] using hflat
    simp only [List.length_nil, Nat.zero_add]
    rcases hfail conn hwf hflat' with hkey | ⟨k, c', hkey, hrest⟩
    · simp only [readContentLoop, hkey]
      simp
    · rcases hrest with hint | ⟨L, c2, hint, hbuf⟩
      · simp only [readContentLoop, hkey, hint]
        simp
      · simp only [readContentLoop, hkey, hint, hbuf]
        simp
  | cons kv tl ih =>
    obtain ⟨ok, v⟩ := kv
    intro extra inp conn tail e hwf hflat hp hfail
    obtain ⟨hkey, hvlen⟩ := hp (ok, v) (List.mem_cons_self ..)
    have hvlen' : v.length < 2147483648 := hvlen
    have hflat1 : conn.flat = encOptStr ok ++
        (int32BE v.length ++ (v ++ (encContent tl ++ tail))) := by
      rw [hflat]
      simp [encContent, List.append_assoc]
    obtain ⟨conn1, hok1, hwf1, hflat1'⟩ :=
      retrieve_utf8_enc conn ok
        (int32BE v.length ++ (v ++ (encContent tl ++ tail))) hwf hflat1 hkey
    obtain ⟨conn2, hok2, hwf2, hflat2'⟩ :=
      retrieve_int_spec conn1 v.length (v ++ (encContent tl ++ tail))
        hwf1 hflat1' (by omega) (by omega)
    obtain ⟨conn3, hok3, hwf3, hflat3'⟩ :=
      retrieve_buffer_ok conn2 v.length v (encContent tl ++ tail)
        hwf2 hflat2' (by omega) (by omega)
    have hloop :=
      ih extra { inp with content := inp.content.add (ok.bind utf8Decode) v }
        conn3 tail e hwf3 hflat3'
        (fun p hp' => hp p (List.mem_cons_of_mem _ hp')) hfail
    have harith : ((ok, v) :: tl).length + (extra + 1) =
        (tl.length + (extra + 1)) + 1 := by
      simp only [List.length_cons]
      omega
    rw [harith, readContentLoop]
    simp only [hok1, hok2, hok3]
    rw [hloop]
    simp [PairList.add, List.append_assoc]

/-- C2 (amended): any primitive read failure propagates immediately out of
`read` and aborts the decode with that error, but the Request is not left
all-or-nothing: it retains exactly the property/content pairs decoded
before the failure.  The four conjuncts cover a failure inside the property
loop (key or value read, disconnect or decode error), at the content-count
read, inside the content loop (key, length or raw-byte read), and at the
property-count read. -/
theorem read_failure_keeps_partial_state (props : List (List Nat × List Nat))
    (content : List (Option (List Nat) × List Nat))
    (tail : List Nat) (e : Err) (extra : Nat) (conn : Conn)
    (hwf : conn.WF)
    (hprops : ∀ p ∈ props, p.1.length < 32768 ∧ (utf8Decode p.1).isSome ∧
      p.2.length < 32768 ∧ (utf8Decode p.2).isSome)
    (hcontent : ∀ p ∈ content,
      (∀ b, p.1 = some b → b.length < 32768 ∧ (utf8Decode b).isSome) ∧
      p.2.length < 2147483648) :
    (conn.flat = int16BE (props.length + (extra + 1)) ++ (encProps props ++ tail) →
      props.length + (extra + 1) < 32768 →
      propStepFails tail e →
      Input.read Input.init conn = (⟨none, propsDict props, []⟩, .error e)) ∧
    (conn.flat = int16BE props.length ++ (encProps props ++ tail) →
      props.length < 32768 →
      (∀ c : Conn, c.WF → c.flat = tail → retrieve_short c = .error e) →
      Input.read Input.init conn = (⟨none, propsDict props, []⟩, .error e)) ∧
    (conn.flat = int16BE props.length ++ (encProps props ++
        (int16BE (content.length + (extra + 1)) ++ (encContent content ++ tail))) →
      props.length < 32768 → content.length + (extra + 1) < 32768 →
      contentStepFails tail e →
      Input.read Input.init conn =
        (⟨none, propsDict props,
          content.map (fun p => (p.1.bind utf8Decode, p.2))⟩, .error e)) ∧
    (retrieve_short conn = .error e →
      Input.read Input.init conn = (Input.init, .error e)) := by
  refine ⟨?_, ?_, ?_, ?_⟩
  · intro hflat hbound hfail
    obtain ⟨conn1, hok1, hwf1, hflat1'⟩ :=
      retrieve_short_spec conn (props.length + (extra + 1)) (encProps props ++ tail)
        hwf hflat (by omega) (by exact_mod_cast hbound)
    have hloop := readPropsLoop_fails props extra Input.init conn1 tail e
      hwf1 hflat1' hprops hfail
    have htn : (((props.length : Int)) + ((extra : Int) + 1)).toNat =
        props.length + (extra + 1) := by omega
    simp only [Input.read, hok1, htn]
    simp only [Input.init] at hloop ⊢
    rw [hloop]
    simp [propsDict]
  · intro hflat hbound hfail
    obtain ⟨conn1, hok1, hwf1, hflat1'⟩ :=
      retrieve_short_spec conn props.length (encProps props ++ tail)
        hwf hflat (by omega) (by exact_mod_cast hbound)
    obtain ⟨conn2, hloop1, hwf2, hflat2'⟩ :=
      readPropsLoop_spec props Input.init conn1 tail hwf1 hflat1' hprops
    have hshort := hfail conn2 hwf2 hflat2'
    simp only [Input.read, hok1, Int.toNat_natCast, hloop1, hshort]
    simp [Input.init, propsDict]
  · intro hflat hb1 hb2 hfail
    obtain ⟨conn1, hok1, hwf1, hflat1'⟩ :=
      retrieve_short_spec conn props.length
        (encProps props ++
          (int16BE (content.length + (extra + 1)) ++ (encContent content ++ tail)))
        hwf hflat (by omega) (by exact_mod_cast hb1)
    obtain ⟨conn2, hloop1, hwf2, hflat2'⟩ :=
      readPropsLoop_spec props Input.init conn1
        (int16BE (content.length + (extra + 1)) ++ (encContent content ++ tail))
        hwf1 hflat1' hprops
    obtain ⟨conn3, hok3, hwf3, hflat3'⟩ :=
      retrieve_short_spec conn2 (content.length + (extra + 1))
        (encContent content ++ tail) hwf2 hflat2' (by omega) (by exact_mod_cast hb2)
    have hloop2 := readContentLoop_fails content extra
      ⟨none, props.foldl
        (fun m p => dictInsert m (utf8Decode p.1) (utf8Decode p.2)) [], []⟩
      conn3 tail e hwf3 hflat3' hcontent hfail
    have htn : (((content.length : Int)) + ((extra : Int) + 1)).toNat =
        content.length + (extra + 1) := by omega
    simp only [Input.read, hok1, Int.toNat_natCast, hloop1, hok3, htn]
    simp only [Input.init]
    rw [hloop2]
    simp [propsDict]
  · intro hshort
    simp only [Input.read, hshort]

/-- A closed stream makes the next string read fail with a disconnect:
used to instantiate the failing-step hypotheses. -/
theorem retrieve_utf8_closed_fails :
    ∀ c : Conn, c.WF → c.flat = [] → retrieve_utf8 c = .error .disconnected := by
  intro c hwf hflat
  have hbuf : retrieve_buffer c 2 = .error .disconnected := by
    apply retrieveBufferGo_disconnected
    · exact hwf
    · rw [hflat]
      simp
  simp only [retrieve_utf8, retrieve_short, hbuf]

/-- A stream holding exactly the encoded string `0xFF` makes the next
string read fail with a decode error (0xFF is not valid UTF-8). -/
theorem propStepFails_decode_example : propStepFails (encStr [255]) .decodeError := by
  intro c hwf hflat
  left
  exact (retrieve_utf8_pos c [255] [] hwf (by simpa [encStr] using hflat)
    (by decide)).2 (by decide)

/-- A closed stream makes the next content iteration fail with a
disconnect at its key read. -/
theorem contentStepFails_closed_example : contentStepFails [] .disconnected :=
  fun c hwf hflat => Or.inl (retrieve_utf8_closed_fails c hwf hflat)

/-- Witness for C2 (amended): a frame announcing two property pairs whose
second key is the invalid UTF-8 byte `0xFF` fails with the decode error yet
keeps the first pair `a = 1`; a frame announcing two content pairs but
closing after one fails with the disconnect error yet keeps the decoded
content pair `a = [7]`. -/
theorem read_failure_keeps_partial_state_witness :
    Input.read Input.init ⟨[[0, 2, 0, 1, 97, 0, 1, 49, 0, 1, 255]]⟩ =
      (⟨none, [(some "a", some "1")], []⟩, .error .decodeError) ∧
    Input.read Input.init ⟨[[0, 0, 0, 2, 0, 1, 97, 0, 0, 0, 1, 7]]⟩ =
      (⟨none, [], [(some "a", [7])]⟩, .error .disconnected) :=
  ⟨(read_failure_keeps_partial_state [([97], [49])] [] (encStr [255])
      .decodeError 0 ⟨[[0, 2, 0, 1, 97, 0, 1, 49, 0, 1, 255]]⟩
      (by decide) (by decide) (by decide)).1
      (by decide) (by decide) propStepFails_decode_example,
   (read_failure_keeps_partial_state [] [(some [97], [7])] [] .disconnected 0
      ⟨[[0, 0, 0, 2, 0, 1, 97, 0, 0, 0, 1, 7]]⟩
      (by decide) (by decide) (by decide)).2.2.1
      (by decide) (by decide) (by decide) contentStepFails_closed_example⟩

/-- C3 counterexample: decoding a frame whose only property has key
`Handler` succeeds, a case-insensitive lookup of `handler` finds the value
`f`, yet `functionName` is null — so `functionName` is not the value found
by a case-insensitive lookup of `handler`. -/
theorem function_name_not_case_insensitive :
    Input.read Input.init ⟨[[0, 1, 0, 7, 72, 97, 110, 100, 108, 101, 114, 0, 1, 102, 0, 0]]⟩ =
      (⟨none, [(some "Handler", some "f")], []⟩, .ok ⟨[]⟩) ∧
    lookupCI [(some "Handler", some "f")] "handler" = .ok (some "f") ∧
    (none : Option String) ≠ some "f" := by
  exact ⟨by decide, by decide, by decide⟩

/-- C3 (amended): after every successful decode, `functionName` equals the
value found in `properties` by an exact, case-sensitive lookup of the key
`handler` (null when the key is absent or its stored value is null). -/
theorem function_name_exact_lookup (inp : Input) (conn : Conn) (out : Input)
    (c' : Conn) (h : Input.read inp conn = (out, .ok c')) :
    out.function_name = (dictGet out.properties (some "handler")).join := by
  unfold Input.read at h
  repeat' split at h
  all_goals simp_all
  all_goals
    obtain ⟨h1, h2⟩ := h
    subst h1
    rfl

/-- Witness for C3 (amended): the empty frame `[0,0]` decodes successfully
and its `functionName` is the exact-key lookup result. -/  
theorem function_name_exact_lookup_witness :
    Input.read Input.init ⟨[[0, 0, 0, 0]]⟩ = (⟨none, [], []⟩, .ok ⟨[]⟩) ∧
    (⟨none, [], []⟩ : Input).function_name =
      (dictGet ([] : PropDict) (some "handler")).join :=
  ⟨by decide,
    function_name_exact_lookup Input.init ⟨[[0, 0, 0, 0]]⟩ ⟨none, [], []⟩ ⟨[]⟩ (by decide)⟩

/-- C4 counterexample: the `content-type` *value* is matched
case-sensitively.  For a request whose content-type value is
`Tensor/ndlist` — case-insensitively equal to `tensor/ndlist` — `getData`
takes the raw-byte fallback, not the numeric-array route. -/
theorem get_data_not_value_case_insensitive :
    Input.get_data
        ⟨none, [(some "content-type", some "Tensor/ndlist")], [(some "data", [1])]⟩
        none = .ok (.bytes (some [1])) ∧
    Input.get_property
        ⟨none, [(some "content-type", some "Tensor/ndlist")], [(some "data", [1])]⟩
        "content-type" = .ok (some "Tensor/ndlist") ∧
    strLower "Tensor/ndlist" = strLower "tensor/ndlist" ∧
    (Except.ok (DataResult.bytes (some [1])) : Except Err DataResult) ≠
      .ok (.ndlist (some [1])) := by
  exact ⟨by decide, by decide, by decide, by decide⟩

/-- C4 (amended): `getData` dispatches on the *exact* value of the
content-type property obtained by a case-insensitive lookup of the key
`content-type`: value `tensor/ndlist` routes to numeric-array extraction,
`application/json` to structured-record extraction, a value starting with
`text/` to text extraction, a value starting with `image/` to image
extraction, and any other value or an absent content-type to raw byte
extraction. -/
theorem get_data_dispatch (inp : Input) (key : Option String) (ct : Option String)
    (h : inp.get_property "content-type" = .ok ct) :
    (ct = some "tensor/ndlist" →
      inp.get_data key = (inp.get_as_numpy key).map DataResult.ndlist) ∧
    (ct = some "application/json" →
      inp.get_data key = (inp.get_as_json key).map DataResult.json) ∧
    (∀ s, ct = some s → strStartsWith s "text/" = true →
      inp.get_data key = (inp.get_as_string key).map DataResult.text) ∧
    (∀ s, ct = some s → strStartsWith s "image/" = true →
      strStartsWith s "text/" = false →
      inp.get_data key = (inp.get_as_image key).map DataResult.image) ∧
    ((ctStartsWith ct "text/" = false ∧ ctStartsWith ct "image/" = false ∧
      ct ≠ some "tensor/ndlist" ∧ ct ≠ some "application/json") →
      inp.get_data key = (inp.get_as_bytes key).map DataResult.bytes) := by
  refine ⟨?_, ?_, ?_, ?_, ?_⟩
  · intro hct
    subst hct
    simp [Input.get_data, h]
  · intro hct
    subst hct
    simp [Input.get_data, h]
  · intro s hct hstart
    subst hct
    have h1 : s ≠ "tensor/ndlist" := by
      intro hh
      subst hh
      exact absurd hstart (by decide)
    have h2 : s ≠ "application/json" := by
      intro hh
      subst hh
      exact absurd hstart (by decide)
    simp [Input.get_data, h, h1, h2, ctStartsWith, hstart]
  · intro s hct hstart hnotext
    subst hct
    have h1 : s ≠ "tensor/ndlist" := by
      intro hh
      subst hh
      exact absurd hstart (by decide)
    have h2 : s ≠ "application/json" := by
      intro hh
      subst hh
      exact absurd hstart (by decide)
    simp [Input.get_data, h, h1, h2, ctStartsWith, hstart, hnotext]
  · intro hfall
    obtain ⟨ht, hi, h1, h2⟩ := hfall
    simp [Input.get_data, h, h1, h2, ht, hi]

/-- Witness for C4 (amended): a property stored under key `Content-Type`
with value `tensor/ndlist` is found by the case-insensitive key lookup and
routes to numeric-array extraction. -/
theorem get_data_dispatch_witness :
    Input.get_property
        ⟨none, [(some "Content-Type", some "tensor/ndlist")], [(some "data", [1])]⟩
        "content-type" = .ok (some "tensor/ndlist") ∧
    Input.get_data
        ⟨none, [(some "Content-Type", some "tensor/ndlist")], [(some "data", [1])]⟩
        none =
      (Input.get_as_numpy
        ⟨none, [(some "Content-Type", some "tensor/ndlist")], [(some "data", [1])]⟩
        none).map DataResult.ndlist :=
  ⟨by decide,
    (get_data_dispatch
      ⟨none, [(some "Content-Type", some "tensor/ndlist")], [(some "data", [1])]⟩
      none (some "tensor/ndlist") (by decide)).1 rfl⟩

/-- C5: `retrieve_buffer(conn, n)` on a source that closes after delivering
fewer than `n` bytes fails with the disconnect error; and every successful
call returns a buffer of exactly `n` bytes — never a short one. -/
theorem retrieve_buffer_exact :
    (∀ (conn : Conn) (n : Int), conn.WF → (conn.flat.length : Int) < n →
      retrieve_buffer conn n = .error .disconnected) ∧
    (∀ (conn : Conn) (n : Int) (d : List Nat) (conn' : Conn), 0 ≤ n →
      retrieve_buffer conn n = .ok (d, conn') → d.length = n.toNat) := by
  constructor
  · intro conn n hwf hlt
    exact retrieveBufferGo_disconnected n.toNat n conn [] hwf hlt
  · intro conn n d conn' hn hok
    have := retrieveBufferGo_length n.toNat n conn [] d conn' hn hok
    simpa using this

/-- Witness for C5: a source delivering 2 bytes then closing fails a 5-byte
read; a successful 2-byte read out of 3 available returns exactly 2 bytes. -/
theorem retrieve_buffer_exact_witness :
    (Conn.WF ⟨[[1, 2]]⟩ ∧ ((Conn.flat ⟨[[1, 2]]⟩).length : Int) < 5 ∧
      retrieve_buffer ⟨[[1, 2]]⟩ 5 = .error .disconnected) ∧
    (retrieve_buffer ⟨[[7, 8, 9]]⟩ 2 = .ok ([7, 8], ⟨[[9]]⟩) ∧
      ([7, 8] : List Nat).length = (2 : Int).toNat) :=
  ⟨⟨by decide, by decide, retrieve_buffer_exact.1 ⟨[[1, 2]]⟩ 5 (by decide) (by decide)⟩,
   ⟨by decide, retrieve_buffer_exact.2 ⟨[[7, 8, 9]]⟩ 2 [7, 8] ⟨[[9]]⟩ (by decide) (by decide)⟩⟩

/-- C6: `retrieve_utf8` reads a signed 16-bit big-endian length prefix; on a
negative prefix it returns `None` having consumed exactly the two prefix
bytes (the remainder of the stream is untouched); on a non-negative prefix
it reads exactly that many further bytes and returns their UTF-8 decoding,
failing with the decode error when they are not valid UTF-8. -/
theorem retrieve_utf8_consumes_exactly :
    (∀ (conn : Conn) (n : Int) (rest : List Nat), conn.WF →
      conn.flat = int16BE n ++ rest → -32768 ≤ n → n < 0 →
      ∃ conn', retrieve_utf8 conn = .ok (none, conn') ∧
        conn'.WF ∧ conn'.flat = rest) ∧
    (∀ (conn : Conn) (b rest : List Nat), conn.WF →
      conn.flat = int16BE b.length ++ (b ++ rest) → b.length < 32768 →
      (∀ s, utf8Decode b = some s →
        ∃ conn', retrieve_utf8 conn = .ok (some s, conn') ∧
          conn'.WF ∧ conn'.flat = rest) ∧
      (utf8Decode b = none → retrieve_utf8 conn = .error .decodeError)) :=
  ⟨retrieve_utf8_neg, retrieve_utf8_pos⟩

/-- Witness for C6: prefix `-1` yields `None` leaving the byte `7` unread;
prefix `2` over bytes `ha` yields `ha`; prefix `1` over the invalid UTF-8
byte `0xFF` fails with the decode error. -/
theorem retrieve_utf8_consumes_exactly_witness :
    (Conn.WF ⟨[[255, 255, 7]]⟩ ∧
      ∃ conn', retrieve_utf8 ⟨[[255, 255, 7]]⟩ = .ok (none, conn') ∧
        conn'.WF ∧ conn'.flat = [7]) ∧
    (utf8Decode [104, 97] = some "ha" ∧
      ∃ conn', retrieve_utf8 ⟨[[0, 2, 104, 97]]⟩ = .ok (some "ha", conn') ∧
        conn'.WF ∧ conn'.flat = []) ∧
    (utf8Decode [255] = none ∧
      retrieve_utf8 ⟨[[0, 1, 255]]⟩ = .error .decodeError) :=
  ⟨⟨by decide,
      retrieve_utf8_consumes_exactly.1 ⟨[[255, 255, 7]]⟩ (-1) [7] (by decide)
        (by decide) (by decide) (by decide)⟩,
   ⟨by decide,
      (retrieve_utf8_consumes_exactly.2 ⟨[[0, 2, 104, 97]]⟩ [104, 97] [] (by decide)
        (by decide) (by decide)).1 "ha" (by decide)⟩,
   ⟨by decide,
      (retrieve_utf8_consumes_exactly.2 ⟨[[0, 1, 255]]⟩ [255] [] (by decide)
        (by decide) (by decide)).2 (by decide)⟩⟩

/-- C7: on a request with an empty content list, `get_as_bytes` raises the
empty-input error whatever the key argument is — it never returns null. -/
theorem get_as_bytes_empty_raises (inp : Input) (key : Option String)
    (h : inp.content.is_empty = true) :
    inp.get_as_bytes key = .error .emptyInput := by
  unfold Input.get_as_bytes
  rw [if_pos h]

/-- Witness for C7: the empty request fails both with and without a key. -/
theorem get_as_bytes_empty_raises_witness :
    PairList.is_empty ([] : PairList) = true ∧
    Input.get_as_bytes ⟨none, [], []⟩ (some "data") = .error .emptyInput ∧
    Input.get_as_bytes ⟨none, [], []⟩ none = .error .emptyInput :=
  ⟨rfl, get_as_bytes_empty_raises ⟨none, [], []⟩ (some "data") rfl,
    get_as_bytes_empty_raises ⟨none, [], []⟩ none rfl⟩

/-- C8: on a request with non-empty content, `get_as_bytes` without a key
returns the `"data"` value when one exists and otherwise the value of the
first content pair; with a key it returns the first-match lookup of that
key, null when no pair matches. -/
theorem get_as_bytes_selects (inp : Input) (k : String)
    (h : inp.content.is_empty = false) :
    ((inp.content.get "data").isSome →
      inp.get_as_bytes none = .ok (inp.content.get "data")) ∧
    (inp.content.get "data" = none →
      ∀ k0 v0 tl, inp.content = (k0, v0) :: tl →
        inp.get_as_bytes none = .ok (some v0)) ∧
    (inp.get_as_bytes (some k) = .ok (inp.content.get k)) := by
  have hne : ¬ (inp.content.is_empty = true) := by simp [h]
  refine ⟨?_, ?_, ?_⟩
  · intro hd
    unfold Input.get_as_bytes
    rw [if_neg hne]
    cases hg : inp.content.get "data" with
    | none => rw [hg] at hd; simp at hd
    | some v => simp [hg]
  · intro hd k0 v0 tl hcont
    unfold Input.get_as_bytes
    rw [if_neg hne, hcont]
    rw [hcont] at hd
    simp [hd, PairList.value_at]
  · unfold Input.get_as_bytes
    rw [if_neg hne]

/-- Witness for C8: with content `[(other, X), (data, Y)]` the keyless call
returns `Y`; with content `[(other, X)]` it returns the first value `X`;
a supplied key returns its first match. -/
theorem get_as_bytes_selects_witness :
    PairList.is_empty ([(some "other", [88]), (some "data", [89])] : PairList) = false ∧
    Input.get_as_bytes ⟨none, [], [(some "other", [88]), (some "data", [89])]⟩ none =
      .ok (some [89]) ∧
    Input.get_as_bytes ⟨none, [], [(some "other", [88])]⟩ none = .ok (some [88]) ∧
    Input.get_as_bytes ⟨none, [], [(some "other", [88]), (some "data", [89])]⟩
      (some "other") = .ok (some [88]) ∧
    Input.get_as_bytes ⟨none, [], [(some "other", [88]), (some "data", [89])]⟩
      (some "missing") = .ok none :=
  ⟨rfl,
   by
    have h := (get_as_bytes_selects
      ⟨none, [], [(some "other", [88]), (some "data", [89])]⟩ "other" rfl).1 (by decide)
    simpa using h,
   by
    have h := (get_as_bytes_selects
      ⟨none, [], [(some "other", [88])]⟩ "other" rfl).2.1 (by decide)
      (some "other") [88] [] rfl
    simpa using h,
   by
    have h := (get_as_bytes_selects
      ⟨none, [], [(some "other", [88]), (some "data", [89])]⟩ "other" rfl).2.2
    simpa using h,
   by
    have h := (get_as_bytes_selects
      ⟨none, [], [(some "other", [88]), (some "data", [89])]⟩ "missing" rfl).2.2
    simpa using h⟩

/-! ## State-passing view of the materializers

The Python methods below never assign to `self`; their state-passing
embedding therefore returns the receiver unchanged next to the result.
The wrappers make the absence of mutation a provable statement. -/

/-- `get_data` with its receiver threaded through (no `self` assignment). -/
def Input.get_data_st (inp : Input) (key : Option String) :
    Input × Except Err DataResult := (inp, inp.get_data key)

/-- `get_as_bytes` with its receiver threaded through. -/
def Input.get_as_bytes_st (inp : Input) (key : Option String) :
    Input × Except Err (Option (List Nat)) := (inp, inp.get_as_bytes key)

/-- `get_as_string` with its receiver threaded through. -/
def Input.get_as_string_st (inp : Input) (key : Option String) :
    Input × Except Err String := (inp, inp.get_as_string key)

/-- `get_as_json` with its receiver threaded through. -/
def Input.get_as_json_st (inp : Input) (key : Option String) :
    Input × Except Err String := (inp, inp.get_as_json key)

/-- `get_as_image` with its receiver threaded through. -/
def Input.get_as_image_st (inp : Input) (key : Option String) :
    Input × Except Err (List Nat) := (inp, inp.get_as_image key)

/-- `get_as_numpy` with its receiver threaded through. -/
def Input.get_as_numpy_st (inp : Input) (key : Option String) :
    Input × Except Err (Option (List Nat)) := (inp, inp.get_as_numpy key)

/-- C9: none of the content materializers mutates the request — each returns
its receiver unchanged (so `properties`, `content` and `function_name` are
untouched) — and repeated calls with the same arguments, in any order,
return the same results. -/
theorem materializers_pure (inp : Input) (key key2 : Option String) :
    ((inp.get_data_st key).1 = inp ∧
     (inp.get_as_bytes_st key).1 = inp ∧
     (inp.get_as_string_st key).1 = inp ∧
     (inp.get_as_json_st key).1 = inp ∧
     (inp.get_as_image_st key).1 = inp ∧
     (inp.get_as_numpy_st key).1 = inp) ∧
    (((inp.get_data_st key).1.get_data_st key).2 = (inp.get_data_st key).2 ∧
     ((inp.get_as_bytes_st key).1.get_as_bytes_st key).2 =
       (inp.get_as_bytes_st key).2) ∧
    (((inp.get_data_st key).1.get_as_bytes_st key2).2 =
       (inp.get_as_bytes_st key2).2 ∧
     ((inp.get_as_bytes_st key2).1.get_data_st key).2 =
       (inp.get_data_st key).2) :=
  ⟨⟨rfl, rfl, rfl, rfl, rfl, rfl⟩, ⟨rfl, rfl⟩, ⟨rfl, rfl⟩⟩

/-- C10: `retrieve_buffer(conn, n)` with `n ≤ 0` returns the empty buffer
and the connection unchanged — no read is performed; consequently a content
pair with a negative 32-bit length prefix (here `-1`) decodes to an empty
byte value instead of raising. -/
theorem retrieve_buffer_nonpositive :
    (∀ (conn : Conn) (n : Int), n ≤ 0 → retrieve_buffer conn n = .ok ([], conn)) ∧
    Input.read Input.init ⟨[[0, 0, 0, 1, 0, 1, 97, 255, 255, 255, 255]]⟩ =
      (⟨none, [], [(some "a", [])]⟩, .ok ⟨[]⟩) := by
  constructor
  · intro conn n hn
    unfold retrieve_buffer
    rw [retrieveBufferGo.eq_def]
    simp [hn]
  · decide

/-- Witness for C10: a negative length returns an empty buffer leaving the
source untouched. -/
theorem retrieve_buffer_nonpositive_witness :
    (-1 : Int) ≤ 0 ∧ retrieve_buffer ⟨[[5]]⟩ (-1) = .ok ([], ⟨[[5]]⟩) :=
  ⟨by decide, retrieve_buffer_nonpositive.1 ⟨[[5]]⟩ (-1) (by decide)⟩
